import Mathlib

/-!
# Verification of `MultipleDelegation` (handlePrototypeDelegation)

Shallow embedding of `src/source/proxyTrapApproach/MultipleDelegation.class.js`.

The JavaScript class installs a proxy-wrapped "delegation node" as the
prototype of a host object; the node keeps an ordered, duplicate-free list of
delegate objects (`this[$.list]`).  We model the JS heap as a list of object
records indexed by references, and each public operation of the class as a
function on that heap.  Operations that can throw a `TypeError` in JavaScript
return `Except JSErr`.

Internal keys from `reference.js` (`$.list`, `$.target`, `$.setter`,
`$.metadata`) are unique symbols, so no user object carries them; in the model
an object record of kind `nodeTarget` is exactly an object carrying them.  The
`$.metadata` field is a derived debug view of `$.list` and is not stored
separately.  `target[$.target]` always holds the target itself (set once in
the constructor and never reassigned), so the model hard-codes it as the
self-reference.
-/

set_option autoImplicit false

namespace MultipleDelegation

/-- JavaScript values, as far as the library observes them.
`vMDproto` is the distinguished `MultipleDelegation.prototype` object and
`vPrimProto` stands for the primordial prototype objects of primitive
wrappers (`Number.prototype` etc.); both are opaque external objects whose
own keys do not include the library's internal symbols. -/
inductive JSVal where
  | vNull
  | vUndefined
  | vBool (b : Bool)
  | vNum (n : Int)
  | vNaN
  | vStr (s : String)
  | vRef (r : Nat)
  | vMDproto
  | vPrimProto
deriving DecidableEq, Repr

/-- JavaScript truthiness (`ToBoolean`). -/
def truthy : JSVal → Bool
  | .vNull => false
  | .vUndefined => false
  | .vBool b => b
  | .vNum n => n != 0
  | .vNaN => false
  | .vStr s => !(s == "")
  | .vRef _ => true
  | .vMDproto => true
  | .vPrimProto => true

/-- Heap records.
* `ordinary p`: a plain object whose prototype slot holds `p` (no internal
  symbol keys).
* `nodeTarget p l`: the raw target allocated by `new MultipleDelegation`:
  own keys `$.list` (holding `l`), `$.target` (holding itself), `$.metadata`;
  prototype slot `p` (always `MultipleDelegation.prototype` on construction).
* `nodeProxy t`: the `Proxy` wrapping target `t` with the library's
  `proxyHandler`. -/
inductive ObjData where
  | ordinary (proto : JSVal)
  | nodeTarget (proto : JSVal) (list : List JSVal)
  | nodeProxy (target : Nat)
deriving DecidableEq, Repr

/-- The heap: allocation appends, so an object's reference is its index. -/
abbrev Heap := List ObjData

/-- JavaScript exceptions observable from the library. `modelError` marks
heap states unreachable through the modelled API (dangling references,
proxies wrapping non-targets). -/
inductive JSErr where
  | typeError (msg : String)
  | modelError (msg : String)
deriving DecidableEq, Repr

/-! ## `[$.setter]` — the delegate-merge method (lines 25–29) -/

/-- One step of `[...new Set(list)]`: insert `x` unless already present
(JS `Set` is insertion-ordered and keeps the first occurrence). -/
def jsSetAdd (acc : List JSVal) (x : JSVal) : List JSVal :=
  if x ∈ acc then acc else acc ++ [x]

/-- `[...new Set(l)]`: duplicates removed, first occurrence keeps its slot. -/
def jsSetOfList (l : List JSVal) : List JSVal := l.foldl jsSetAdd []

/-- `[$.setter](prototype)` with an array argument: concatenate onto the
stored `$.list`, then drop duplicate entries
(`this[$.list] = [...new Set([...this[$.list], ...prototype])]`). -/
def mSetter (old prototype : List JSVal) : List JSVal :=
  jsSetOfList (old ++ prototype)

/-- `[$.setter](prototype)` with a non-array argument: the method wraps it
(`if (!Array.isArray(prototype)) prototype = [prototype]`). -/
def mSetterSingle (old : List JSVal) (v : JSVal) : List JSVal :=
  mSetter old [v]

/-! ## Constructor (lines 31–47) -/

/-- `new MultipleDelegation(delegationList)`: allocates the raw target and
the wrapping proxy, initialises `$.list = []` then merges `delegationList`
through `[$.setter]`, and returns `{ proxy, target }`.
Result: `(heap, proxyRef, targetRef)`. -/
def mdConstructor (h : Heap) (delegationList : List JSVal) :
    Heap × Nat × Nat :=
  let targetRef := h.length
  let proxyRef := h.length + 1
  (h ++ [.nodeTarget .vMDproto (mSetter [] delegationList),
         .nodeProxy targetRef],
   proxyRef, targetRef)

/-! ## Fundamental operations

`Object.getPrototypeOf` / `Object.setPrototypeOf` on ordinary objects read
and write the prototype slot directly.  On a `nodeProxy` they go through the
proxy; `interceptHandler.js` is not part of the sources, so the trap
behaviour is modelled from the spec. -/

/-- `Object.getPrototypeOf(v)`.  Throws for `null`/`undefined`; primitives
are boxed, yielding their primordial prototype.  Modelled from the spec:
the `getPrototypeOf` trap of the (absent) `interceptHandler.js` redirects
the query to the node's own backing storage, i.e. the target's prototype
slot (§4.3).  The prototype slots of the opaque externals `vMDproto` /
`vPrimProto` are approximated as `null`; nothing reachable through the
modelled API depends on them. -/
def getPrototypeOfE (h : Heap) (v : JSVal) : Except JSErr JSVal :=
  match v with
  | .vNull => .error (.typeError "Cannot convert null to object")
  | .vUndefined => .error (.typeError "Cannot convert undefined to object")
  | .vRef r =>
    match h[r]? with
    | some (.ordinary p) => .ok p
    | some (.nodeTarget p _) => .ok p
    | some (.nodeProxy t) =>
      match h[t]? with
      | some (.ordinary p) => .ok p
      | some (.nodeTarget p _) => .ok p
      | _ => .error (.modelError "proxy target is not a node target")
    | none => .error (.modelError "dangling reference")
  | .vMDproto => .ok .vNull
  | .vPrimProto => .ok .vNull
  | _ => .ok .vPrimProto

/-- `Object.setPrototypeOf(v, p)`.  Throws for `null`/`undefined`; a silent
no-op for primitives (and for the opaque external objects, whose slots the
model keeps frozen).  No `setPrototypeOf` trap is listed for the intercept
layer (§6), so on a proxy the operation forwards to the target. -/
def setPrototypeOf (h : Heap) (v p : JSVal) : Except JSErr Heap :=
  match v with
  | .vNull => .error (.typeError "Object.setPrototypeOf called on null")
  | .vUndefined => .error (.typeError "Object.setPrototypeOf called on undefined")
  | .vRef r =>
    match h[r]? with
    | some (.ordinary _) => .ok (h.set r (.ordinary p))
    | some (.nodeTarget _ l) => .ok (h.set r (.nodeTarget p l))
    | some (.nodeProxy t) =>
      match h[t]? with
      | some (.nodeTarget _ l) => .ok (h.set t (.nodeTarget p l))
      | some (.ordinary _) => .ok (h.set t (.ordinary p))
      | _ => .error (.modelError "dangling proxy target")
    | none => .error (.modelError "dangling reference")
  | _ => .ok h

/-- Does `Reflect.ownKeys(v)` include the internal `$.target` key?
Only node targets carry it; for a proxy, the `ownKeys` trap reports the
target's own keys (Modelled from the spec: ownKeys redirects to the node's
own backing storage, §4.3). -/
def ownKeysIncludeTargetKey (h : Heap) (r : Nat) : Bool :=
  match h[r]? with
  | some (.nodeTarget _ _) => true
  | some (.nodeProxy t) =>
    match h[t]? with
    | some (.nodeTarget _ _) => true
    | _ => false
  | _ => false

/-- `instance[$.target]`, restricted to the values it takes in reachable
states: a node target stores itself there; reading through the proxy's
`get` trap (Modelled from the spec: own backing storage first, §4.3) yields
the raw target. -/
def rawTargetOf (h : Heap) (r : Nat) : Option Nat :=
  match h[r]? with
  | some (.nodeTarget _ _) => some r
  | some (.nodeProxy t) =>
    match h[t]? with
    | some (.nodeTarget _ _) => some t
    | _ => none
  | _ => none

/-- The prototype slot of the object at `r`, read without traps
(`Object.getPrototypeOf` applied to a raw, non-proxy object). -/
def rawProtoOf (h : Heap) (r : Nat) : Option JSVal :=
  match h[r]? with
  | some (.ordinary p) => some p
  | some (.nodeTarget p _) => some p
  | some (.nodeProxy _) => none
  | none => none

/-! ## `Symbol.hasInstance` (lines 17–21) -/

/-- `MultipleDelegation[Symbol.hasInstance](instance)`: when `instance` is a
non-null object whose own keys include `$.target`, compare the prototype of
the raw target with `MultipleDelegation.prototype`; otherwise fall off the
end of the function, returning `undefined` (falsy but not `false`). -/
def hasInstanceMD (h : Heap) (v : JSVal) : JSVal :=
  match v with
  | .vRef r =>
    if ownKeysIncludeTargetKey h r then
      match rawTargetOf h r with
      | some t =>
        match rawProtoOf h t with
        | some p => .vBool (p == .vMDproto)
        | none => .vUndefined
      | none => .vUndefined
    else .vUndefined
  | _ => .vUndefined

/-- `v[$.target]` as an expression (line 64): throws on `null`/`undefined`,
`undefined` on objects without the key and on boxed primitives. -/
def getTargetProp (h : Heap) (v : JSVal) : Except JSErr JSVal :=
  match v with
  | .vNull => .error (.typeError "Cannot read properties of null")
  | .vUndefined => .error (.typeError "Cannot read properties of undefined")
  | .vRef r =>
    match h[r]? with
    | some (.nodeTarget _ _) => .ok (.vRef r)
    | some (.nodeProxy t) =>
      match h[t]? with
      | some (.nodeTarget _ _) => .ok (.vRef t)
      | _ => .ok .vUndefined
    | some (.ordinary _) => .ok .vUndefined
    | none => .error (.modelError "dangling reference")
  | _ => .ok .vUndefined

/-! ## `addDelegation` (lines 50–65) -/

/-- The filter of line 63:
`delegationList.filter(item => item && item !== multipleDelegationProxy)` —
keep truthy entries distinct from the node's wrapped (proxy) identity. -/
def delegationFilter (mdp : JSVal) (l : List JSVal) : List JSVal :=
  l.filter (fun item => truthy item && decide (item ≠ mdp))

/-- `MultipleDelegation.addDelegation({targetObject, delegationList})`:

1. empty `delegationList` ⇒ return immediately;
2. read the host's current prototype and `unshift` it onto the list;
3. if that prototype is not a direct `MultipleDelegation` instance,
   allocate a fresh node and install its proxy as the host's prototype;
4. re-read the host's prototype, filter the list (truthy, not the proxy
   itself), and merge it into the node's raw target via `[$.setter]`. -/
def addDelegation (h : Heap) (targetObject : JSVal)
    (delegationList : List JSVal) : Except JSErr Heap :=
  if delegationList.length = 0 then .ok h else
  match getPrototypeOfE h targetObject with
  | .error e => .error e
  | .ok currentPrototype =>
    let dl1 := currentPrototype :: delegationList
    let step3 : Except JSErr Heap :=
      if truthy (hasInstanceMD h currentPrototype) then .ok h
      else
        let c := mdConstructor h []
        setPrototypeOf c.1 targetObject (.vRef c.2.1)
    match step3 with
    | .error e => .error e
    | .ok h1 =>
      match getPrototypeOfE h1 targetObject with
      | .error e => .error e
      | .ok mdp =>
        match getTargetProp h1 mdp with
        | .error e => .error e
        | .ok tgt =>
          match tgt with
          | .vRef t =>
            match h1[t]? with
            | some (.nodeTarget pr l) =>
              .ok (h1.set t (.nodeTarget pr (mSetter l (delegationFilter mdp dl1))))
            | _ => .error (.typeError "setter call on an object without the node methods")
          | _ => .error (.typeError "Cannot read properties of undefined (reading setter)")

/-- Reference rendering of "keep the first occurrence of each element",
the ordering contract §4.2 states for the dedup step. -/
def firstOccurrenceDedup : List JSVal → List JSVal
  | [] => []
  | x :: xs => x :: firstOccurrenceDedup (xs.filter (fun y => decide (y ≠ x)))
termination_by l => l.length
decreasing_by
  simp only [List.length_cons]
  exact Nat.lt_succ_of_le (List.length_filter_le _ xs)

/-! ## Library lemmas about the insertion-ordered set -/

theorem mem_jsSetAdd {acc : List JSVal} {x y : JSVal} :
    y ∈ jsSetAdd acc x ↔ y ∈ acc ∨ y = x := by
  unfold jsSetAdd
  split
  · next hx =>
    refine ⟨Or.inl, ?_⟩
    rintro (hy | rfl)
    · exact hy
    · exact hx
  · simp

theorem mem_foldl_jsSetAdd {l : List JSVal} :
    ∀ {acc x}, x ∈ List.foldl jsSetAdd acc l ↔ x ∈ acc ∨ x ∈ l := by
  induction l with
  | nil => simp
  | cons a l ih =>
    intro acc x
    simp only [List.foldl_cons, ih, mem_jsSetAdd, List.mem_cons]
    tauto

theorem nodup_foldl_jsSetAdd {l : List JSVal} :
    ∀ {acc : List JSVal}, acc.Nodup → (List.foldl jsSetAdd acc l).Nodup := by
  induction l with
  | nil => exact fun h => h
  | cons a l ih =>
    intro acc hacc
    refine ih ?_
    unfold jsSetAdd
    split
    · exact hacc
    · next ha => simpa [List.nodup_append] using ⟨hacc, ha⟩

theorem foldl_jsSetAdd_of_subset {l acc : List JSVal}
    (hsub : ∀ x ∈ l, x ∈ acc) : List.foldl jsSetAdd acc l = acc := by
  induction l with
  | nil => rfl
  | cons a l ih =>
    have ha : a ∈ acc := hsub a (List.mem_cons_self a l)
    simp only [List.foldl_cons, jsSetAdd, if_pos ha]
    exact ih fun x hx => hsub x (List.mem_cons_of_mem a hx)

theorem mem_jsSetOfList {l : List JSVal} {x : JSVal} :
    x ∈ jsSetOfList l ↔ x ∈ l := by
  simp [jsSetOfList, mem_foldl_jsSetAdd]

theorem nodup_jsSetOfList (l : List JSVal) : (jsSetOfList l).Nodup :=
  nodup_foldl_jsSetAdd List.nodup_nil

theorem foldl_jsSetAdd_disjoint {m : List JSVal} :
    ∀ {acc : List JSVal}, m.Nodup → (∀ x ∈ m, x ∉ acc) →
      List.foldl jsSetAdd acc m = acc ++ m := by
  induction m with
  | nil => simp
  | cons a m ih =>
    intro acc hnd hdis
    have ha : a ∉ acc := hdis a (List.mem_cons_self a m)
    simp only [List.foldl_cons, jsSetAdd, if_neg ha]
    rw [ih hnd.of_cons]
    · simp
    · intro x hx
      simp only [List.mem_append, List.mem_singleton]
      rintro (hc | rfl)
      · exact hdis x (List.mem_cons_of_mem a hx) hc
      · exact (List.nodup_cons.mp hnd).1 hx

theorem jsSetOfList_of_nodup {l : List JSVal} (h : l.Nodup) :
    jsSetOfList l = l := by
  simpa [jsSetOfList] using foldl_jsSetAdd_disjoint h (by simp)

theorem mem_mSetter {old arg : List JSVal} {x : JSVal} :
    x ∈ mSetter old arg ↔ x ∈ old ∨ x ∈ arg := by
  simp [mSetter, mem_jsSetOfList]

/-- The accumulator form of `[...new Set(l)]` keeps first occurrences:
elements already in `acc` are dropped, the rest come out in the order of
their first appearance. -/
theorem foldl_jsSetAdd_eq_dedup :
    ∀ (n : Nat) (l : List JSVal), l.length ≤ n →
      ∀ acc, List.foldl jsSetAdd acc l
        = acc ++ firstOccurrenceDedup (l.filter (fun y => decide (y ∉ acc))) := by
  intro n
  induction n with
  | zero =>
    intro l hl acc
    obtain rfl : l = [] := List.length_eq_zero.mp (Nat.le_zero.mp hl)
    simp [firstOccurrenceDedup]
  | succ n ih =>
    intro l hl acc
    match l with
    | [] => simp [firstOccurrenceDedup]
    | x :: xs =>
      have hxs : xs.length ≤ n := by simpa using hl
      by_cases hx : x ∈ acc
      · rw [List.foldl_cons, show jsSetAdd acc x = acc from by simp [jsSetAdd, hx],
          ih xs hxs acc, List.filter_cons_of_neg (by simp [hx])]
      · rw [List.foldl_cons, show jsSetAdd acc x = acc ++ [x] from by simp [jsSetAdd, hx],
          ih xs hxs (acc ++ [x]), List.filter_cons_of_pos (by simp [hx])]
        have h2 : (xs.filter (fun y => decide (y ∉ acc))).filter (fun y => decide (y ≠ x))
            = xs.filter (fun y => decide (y ∉ acc ++ [x])) := by
          rw [List.filter_filter]
          refine List.filter_congr fun a _ => ?_
          by_cases h1 : a = x <;> by_cases hmem : a ∈ acc <;> simp [h1, hmem]
        simp only [firstOccurrenceDedup, ← h2]
        simp

/-- `[...new Set(l)]` computes exactly the first-occurrence dedup of `l`. -/
theorem jsSetOfList_eq_firstOccurrenceDedup (l : List JSVal) :
    jsSetOfList l = firstOccurrenceDedup l := by
  have h := foldl_jsSetAdd_eq_dedup l.length l le_rfl []
  simpa [jsSetOfList] using h

/-! ## Symbolic characterisations of `addDelegation` -/

theorem lt_length_of_getElem?_eq_some {α : Type} {l : List α} {i : Nat} {a : α}
    (h : l[i]? = some a) : i < l.length := by
  by_contra hc
  rw [List.getElem?_eq_none (Nat.le_of_not_lt hc)] at h
  exact Option.noConfusion h

/-- `addDelegation` on a host whose current prototype is not a direct
`MultipleDelegation` instance: a fresh node (target at index `h.length`,
proxy at `h.length + 1`) is allocated, installed as the host's prototype,
and receives the filtered delegate list. -/
theorem addDelegation_fresh (h : Heap) (r : Nat) (p : JSVal) (dl : List JSVal)
    (hr : h[r]? = some (.ordinary p))
    (hni : truthy (hasInstanceMD h p) = false)
    (hne : dl ≠ []) :
    addDelegation h (.vRef r) dl =
      .ok (((h ++ [ObjData.nodeTarget JSVal.vMDproto [],
                   ObjData.nodeProxy h.length]).set r
              (.ordinary (.vRef (h.length + 1)))).set h.length
            (.nodeTarget .vMDproto
              (mSetter [] (delegationFilter (.vRef (h.length + 1)) (p :: dl))))) := by
  have hrlt : r < h.length := lt_length_of_getElem?_eq_some hr
  have hlen0 : ¬ dl.length = 0 := by simpa [List.length_eq_zero] using hne
  have hr_ne_len : r ≠ h.length := Nat.ne_of_lt hrlt
  have hr_ne_len1 : r ≠ h.length + 1 := by omega
  have hhf_r : (h ++ [ObjData.nodeTarget JSVal.vMDproto [],
        ObjData.nodeProxy h.length])[r]? = some (ObjData.ordinary p) := by
    rw [List.getElem?_append]
    simp [hrlt, hr]
  have h1_r : ((h ++ [ObjData.nodeTarget JSVal.vMDproto [],
        ObjData.nodeProxy h.length]).set r
        (ObjData.ordinary (JSVal.vRef (h.length + 1))))[r]?
      = some (ObjData.ordinary (JSVal.vRef (h.length + 1))) := by
    refine List.getElem?_set_eq_of_lt _ ?_
    simp only [List.length_append, List.length_cons, List.length_nil]
    omega
  have h1_len1 : ((h ++ [ObjData.nodeTarget JSVal.vMDproto [],
        ObjData.nodeProxy h.length]).set r
        (ObjData.ordinary (JSVal.vRef (h.length + 1))))[h.length + 1]?
      = some (ObjData.nodeProxy h.length) := by
    rw [List.getElem?_set_ne hr_ne_len1,
      List.getElem?_append_right (Nat.le_succ h.length)]
    simp
  have h1_len : ((h ++ [ObjData.nodeTarget JSVal.vMDproto [],
        ObjData.nodeProxy h.length]).set r
        (ObjData.ordinary (JSVal.vRef (h.length + 1))))[h.length]?
      = some (ObjData.nodeTarget JSVal.vMDproto []) := by
    rw [List.getElem?_set_ne hr_ne_len, List.getElem?_append_right (le_refl _)]
    simp
  simp [addDelegation, hlen0, getPrototypeOfE, hr, hni, mdConstructor,
    mSetter, jsSetOfList, setPrototypeOf, hhf_r, h1_r, h1_len1, h1_len,
    getTargetProp]

/-- `addDelegation` on a host whose current prototype is already a node
proxy: no allocation, the filtered list is merged into the existing raw
target `t`. -/
theorem addDelegation_existing (h : Heap) (r π t : Nat) (l dl : List JSVal)
    (hr : h[r]? = some (.ordinary (.vRef π)))
    (hπ : h[π]? = some (.nodeProxy t))
    (ht : h[t]? = some (.nodeTarget .vMDproto l))
    (hne : dl ≠ []) :
    addDelegation h (.vRef r) dl =
      .ok (h.set t (.nodeTarget .vMDproto
            (mSetter l (delegationFilter (.vRef π) (.vRef π :: dl))))) := by
  have hlen0 : ¬ dl.length = 0 := by simpa [List.length_eq_zero] using hne
  have hinst : truthy (hasInstanceMD h (.vRef π)) = true := by
    simp [hasInstanceMD, ownKeysIncludeTargetKey, rawTargetOf, rawProtoOf, hπ, ht, truthy]
  simp only [addDelegation, hlen0, if_false, getPrototypeOfE, hr, hπ, ht, hinst,
    if_true, getTargetProp]

/-- `addDelegation` on a host whose current prototype is the *raw* node
target (not its proxy): the `instanceof` check also succeeds, and the list
is merged into that target. -/
theorem addDelegation_existing_raw (h : Heap) (r π : Nat) (l dl : List JSVal)
    (hr : h[r]? = some (.ordinary (.vRef π)))
    (hπ : h[π]? = some (.nodeTarget .vMDproto l))
    (hne : dl ≠ []) :
    addDelegation h (.vRef r) dl =
      .ok (h.set π (.nodeTarget .vMDproto
            (mSetter l (delegationFilter (.vRef π) (.vRef π :: dl))))) := by
  have hlen0 : ¬ dl.length = 0 := by simpa [List.length_eq_zero] using hne
  have hinst : truthy (hasInstanceMD h (.vRef π)) = true := by
    simp [hasInstanceMD, ownKeysIncludeTargetKey, rawTargetOf, rawProtoOf, hπ, truthy]
  simp only [addDelegation, hlen0, if_false, getPrototypeOfE, hr, hπ, hinst,
    if_true, getTargetProp]

theorem mem_delegationFilter {mdp x : JSVal} {l : List JSVal} :
    x ∈ delegationFilter mdp l ↔ x ∈ l ∧ truthy x = true ∧ x ≠ mdp := by
  simp [delegationFilter, List.mem_filter, and_assoc]

/-! ## The claims -/

/-- C1: attaching a single delegate `D` to a host whose current prototype
`P` is an ordinary object installs a freshly allocated proxy-wrapped node
(the proxy reference did not exist in the old heap) as the host's
prototype, and the node's delegate list is `[P, D]`, original parent
first. -/
theorem claim_C1_attach_fresh (h : Heap) (r p d : Nat) (P : JSVal)
    (hr : h[r]? = some (.ordinary (.vRef p)))
    (hp : h[p]? = some (.ordinary P))
    (hd : d < h.length)
    (hpd : p ≠ d) :
    ∃ h', addDelegation h (.vRef r) [.vRef d] = .ok h' ∧
      h'[r]? = some (.ordinary (.vRef (h.length + 1))) ∧
      h'[h.length + 1]? = some (.nodeProxy h.length) ∧
      h[h.length + 1]? = none ∧
      h'[h.length]? = some (.nodeTarget .vMDproto [.vRef p, .vRef d]) := by
  have hni : truthy (hasInstanceMD h (.vRef p)) = false := by
    simp [hasInstanceMD, ownKeysIncludeTargetKey, hp, truthy]
  have hplt : p < h.length := lt_length_of_getElem?_eq_some hp
  have hrlt : r < h.length := lt_length_of_getElem?_eq_some hr
  have hp1 : p ≠ h.length + 1 := by omega
  have hd1 : d ≠ h.length + 1 := by omega
  have hLr : h.length ≠ r := Ne.symm (Nat.ne_of_lt hrlt)
  have hL1 : h.length ≠ h.length + 1 := by omega
  have hr1 : r ≠ h.length + 1 := by omega
  have hmain := addDelegation_fresh h r (.vRef p) [.vRef d] hr hni (by simp)
  have hfil : delegationFilter (.vRef (h.length + 1)) [JSVal.vRef p, .vRef d]
      = [JSVal.vRef p, .vRef d] := by
    simp [delegationFilter, truthy, hp1, hd1]
  have hset : mSetter [] [JSVal.vRef p, .vRef d] = [JSVal.vRef p, .vRef d] := by
    unfold mSetter
    rw [List.nil_append]
    exact jsSetOfList_of_nodup (by simp [hpd])
  rw [hfil, hset] at hmain
  refine ⟨_, hmain, ?_, ?_, ?_, ?_⟩
  · rw [List.getElem?_set_ne hLr]
    refine List.getElem?_set_eq_of_lt _ ?_
    simp only [List.length_append, List.length_cons, List.length_nil]
    omega
  · rw [List.getElem?_set_ne hL1, List.getElem?_set_ne hr1,
      List.getElem?_append_right (Nat.le_succ h.length)]
    simp
  · exact List.getElem?_eq_none (Nat.le_succ h.length)
  · refine List.getElem?_set_eq_of_lt _ ?_
    simp only [List.length_set, List.length_append, List.length_cons,
      List.length_nil]
    omega

/-- C2: attaching `[D1]` then `[D2]` to the same host allocates exactly one
node pair (the heap grows by two objects on the first call and not at all
on the second), leaves the host's prototype slot untouched on the second
call, and ends with the single node's delegates equal to `[P, D1, D2]`. -/
theorem claim_C2_attach_twice (h : Heap) (r p d1 d2 : Nat) (P : JSVal)
    (hr : h[r]? = some (.ordinary (.vRef p)))
    (hp : h[p]? = some (.ordinary P))
    (hd1 : d1 < h.length) (hd2 : d2 < h.length)
    (hpd1 : p ≠ d1) (hpd2 : p ≠ d2) (hdd : d1 ≠ d2) :
    ∃ h1 h2, addDelegation h (.vRef r) [.vRef d1] = .ok h1 ∧
      addDelegation h1 (.vRef r) [.vRef d2] = .ok h2 ∧
      h1.length = h.length + 2 ∧
      h2.length = h1.length ∧
      h1[r]? = some (.ordinary (.vRef (h.length + 1))) ∧
      h2[r]? = h1[r]? ∧
      h2[h.length]? = some (.nodeTarget .vMDproto [.vRef p, .vRef d1, .vRef d2]) := by
  have hni : truthy (hasInstanceMD h (.vRef p)) = false := by
    simp [hasInstanceMD, ownKeysIncludeTargetKey, hp, truthy]
  have hplt : p < h.length := lt_length_of_getElem?_eq_some hp
  have hrlt : r < h.length := lt_length_of_getElem?_eq_some hr
  have hp1 : p ≠ h.length + 1 := by omega
  have hda : d1 ≠ h.length + 1 := by omega
  have hdb : d2 ≠ h.length + 1 := by omega
  have hLr : h.length ≠ r := Ne.symm (Nat.ne_of_lt hrlt)
  have hL1 : h.length ≠ h.length + 1 := by omega
  have hr1 : r ≠ h.length + 1 := by omega
  have hmain := addDelegation_fresh h r (.vRef p) [.vRef d1] hr hni (by simp)
  have hfil : delegationFilter (.vRef (h.length + 1)) [JSVal.vRef p, .vRef d1]
      = [JSVal.vRef p, .vRef d1] := by
    simp [delegationFilter, truthy, hp1, hda]
  have hset : mSetter [] [JSVal.vRef p, .vRef d1] = [JSVal.vRef p, .vRef d1] := by
    unfold mSetter
    rw [List.nil_append]
    exact jsSetOfList_of_nodup (by simp [hpd1])
  rw [hfil, hset] at hmain
  -- the heap after the first call
  have h1r : (((h ++ [ObjData.nodeTarget JSVal.vMDproto [],
        ObjData.nodeProxy h.length]).set r
        (ObjData.ordinary (JSVal.vRef (h.length + 1)))).set h.length
        (ObjData.nodeTarget JSVal.vMDproto [JSVal.vRef p, .vRef d1]))[r]?
      = some (.ordinary (.vRef (h.length + 1))) := by
    rw [List.getElem?_set_ne hLr]
    refine List.getElem?_set_eq_of_lt _ ?_
    simp only [List.length_append, List.length_cons, List.length_nil]
    omega
  have h1π : (((h ++ [ObjData.nodeTarget JSVal.vMDproto [],
        ObjData.nodeProxy h.length]).set r
        (ObjData.ordinary (JSVal.vRef (h.length + 1)))).set h.length
        (ObjData.nodeTarget JSVal.vMDproto [JSVal.vRef p, .vRef d1]))[h.length + 1]?
      = some (.nodeProxy h.length) := by
    rw [List.getElem?_set_ne hL1, List.getElem?_set_ne hr1,
      List.getElem?_append_right (Nat.le_succ h.length)]
    simp
  have h1t : (((h ++ [ObjData.nodeTarget JSVal.vMDproto [],
        ObjData.nodeProxy h.length]).set r
        (ObjData.ordinary (JSVal.vRef (h.length + 1)))).set h.length
        (ObjData.nodeTarget JSVal.vMDproto [JSVal.vRef p, .vRef d1]))[h.length]?
      = some (.nodeTarget .vMDproto [JSVal.vRef p, .vRef d1]) := by
    refine List.getElem?_set_eq_of_lt _ ?_
    simp only [List.length_set, List.length_append, List.length_cons,
      List.length_nil]
    omega
  have hsecond := addDelegation_existing _ r (h.length + 1) h.length
    [JSVal.vRef p, .vRef d1] [.vRef d2] h1r h1π h1t (by simp)
  have hfil2 : delegationFilter (.vRef (h.length + 1))
      [JSVal.vRef (h.length + 1), .vRef d2] = [JSVal.vRef d2] := by
    simp [delegationFilter, truthy, hdb]
  have hset2 : mSetter [JSVal.vRef p, .vRef d1] [JSVal.vRef d2]
      = [JSVal.vRef p, .vRef d1, .vRef d2] := by
    unfold mSetter
    have : [JSVal.vRef p, .vRef d1] ++ [JSVal.vRef d2]
        = [JSVal.vRef p, .vRef d1, .vRef d2] := rfl
    rw [this]
    exact jsSetOfList_of_nodup (by simp [hpd1, hpd2, hdd])
  rw [hfil2, hset2] at hsecond
  refine ⟨_, _, hmain, hsecond, ?_, ?_, h1r, ?_, ?_⟩
  · simp
  · simp
  · rw [List.getElem?_set_ne hLr]
  · refine List.getElem?_set_eq_of_lt _ ?_
    simp only [List.length_set, List.length_append, List.length_cons,
      List.length_nil]
    omega

/-- C7: an empty delegate list makes `addDelegation` return immediately;
the heap — in particular the host's prototype slot and every node's
delegate list — is unchanged. -/
theorem claim_C7_empty_list_noop (h : Heap) (host : JSVal) :
    addDelegation h host [] = .ok h := rfl

/-- C5: merging the same delegate list twice leaves the same `delegates`
sequence as merging it once — `[$.setter]` is idempotent in its argument
and duplicates never accumulate. -/
theorem claim_C5_merge_idempotent (l L : List JSVal) :
    mSetter (mSetter l L) L = mSetter l L := by
  unfold mSetter
  have h1 : jsSetOfList (jsSetOfList (l ++ L) ++ L)
      = List.foldl jsSetAdd (jsSetOfList (jsSetOfList (l ++ L))) L := by
    simp [jsSetOfList, List.foldl_append]
  rw [h1, jsSetOfList_of_nodup (nodup_jsSetOfList _)]
  exact foldl_jsSetAdd_of_subset
    (fun x hx => mem_jsSetOfList.mpr (List.mem_append_right l hx))

/-- C6: the merge keeps exactly one occurrence of each distinct reference,
at the position of its first occurrence (the general dedup law), and in
particular merging `[A, B, A, C]` into an empty node yields `[A, B, C]`. -/
theorem claim_C6_first_occurrence (A B C : JSVal)
    (hAB : A ≠ B) (hAC : A ≠ C) (hBC : B ≠ C) :
    (∀ l : List JSVal, jsSetOfList l = firstOccurrenceDedup l) ∧
    mSetter [] [A, B, A, C] = [A, B, C] := by
  refine ⟨jsSetOfList_eq_firstOccurrenceDedup, ?_⟩
  simp [mSetter, jsSetOfList, jsSetAdd, List.foldl,
    hAB, hAC, hBC, Ne.symm hAB, Ne.symm hAC, Ne.symm hBC]

/-- C3 as stated is false: line 63 only filters entries equal to the
*wrapped* proxy (`item !== multipleDelegationProxy`).  Here the host at
reference 2 already has the node proxy (reference 1, wrapping target 0) as
its prototype; passing the node's *raw* target (reference 0) — obtainable
from the constructor's `{ proxy, target }` result — leaves it in the
node's own delegate list. -/
theorem claim_C3_counterexample :
    addDelegation
        [ObjData.nodeTarget .vMDproto [], .nodeProxy 0, .ordinary (.vRef 1)]
        (.vRef 2) [.vRef 0]
      = .ok [ObjData.nodeTarget .vMDproto [.vRef 0], .nodeProxy 0,
             .ordinary (.vRef 1)] ∧
    rawTargetOf [ObjData.nodeTarget .vMDproto [.vRef 0], .nodeProxy 0,
             .ordinary (.vRef 1)] 1 = some 0 ∧
    JSVal.vRef 0 ∈ [JSVal.vRef 0] :=
  ⟨rfl, rfl, by simp⟩

/-- C3 (amended): after `addDelegation` on a host whose prototype is the
wrapped node `π` (proxy of target `t`), the node's delegate list never
contains the node's *wrapped* identity `π`, provided it did not before;
the raw identity is not filtered. -/
theorem claim_C3_amended_no_wrapped_self (h : Heap) (r π t : Nat)
    (l dl : List JSVal) (h' : Heap)
    (hr : h[r]? = some (.ordinary (.vRef π)))
    (hπ : h[π]? = some (.nodeProxy t))
    (ht : h[t]? = some (.nodeTarget .vMDproto l))
    (hno : JSVal.vRef π ∉ l)
    (hok : addDelegation h (.vRef r) dl = .ok h') :
    ∀ pr l', h'[t]? = some (.nodeTarget pr l') → JSVal.vRef π ∉ l' := by
  intro pr l' ht'
  by_cases hdl : dl = []
  · subst hdl
    rw [show addDelegation h (.vRef r) [] = .ok h from rfl] at hok
    obtain rfl : h = h' := by injection hok
    rw [ht] at ht'
    obtain ⟨-, rfl⟩ : JSVal.vMDproto = pr ∧ l = l' := by
      injection ht' with ht''
      injection ht'' with e1 e2
      exact ⟨e1, e2⟩
    exact hno
  · rw [addDelegation_existing h r π t l dl hr hπ ht hdl] at hok
    obtain rfl : _ = h' := by injection hok
    have htlt : t < h.length := lt_length_of_getElem?_eq_some ht
    rw [List.getElem?_set_eq_of_lt _ (by simpa using htlt)] at ht'
    obtain ⟨-, rfl⟩ : JSVal.vMDproto = pr ∧
        mSetter l (delegationFilter (.vRef π) (.vRef π :: dl)) = l' := by
      injection ht' with ht''
      injection ht'' with e1 e2
      exact ⟨e1, e2⟩
    intro hmem
    rcases mem_mSetter.mp hmem with hl | hf
    · exact hno hl
    · exact (mem_delegationFilter.mp hf).2.2 rfl

/-- C4 as stated is false: neither the constructor nor `[$.setter]` filters
`null`/`undefined` — `new MultipleDelegation([null])` stores `null` in the
node's delegate list, and merging `[undefined]` stores `undefined`.  Only
`addDelegation` filters (line 63). -/
theorem claim_C4_counterexample :
    (mdConstructor [] [JSVal.vNull]).1
      = [ObjData.nodeTarget .vMDproto [JSVal.vNull], .nodeProxy 0] ∧
    JSVal.vNull ∈ [JSVal.vNull] ∧
    mSetter [] [JSVal.vUndefined] = [JSVal.vUndefined] :=
  ⟨rfl, by simp, rfl⟩

/-- C4 (amended): `addDelegation` alone maintains the no-`null`/`undefined`
invariant: on a host whose prototype is not a node, the freshly created
node's delegate list contains neither `null` nor `undefined`, whatever was
passed.  (Node creation with explicit delegates and direct `[$.setter]`
calls do not filter.) -/
theorem claim_C4_amended_attach_filters (h : Heap) (r : Nat) (p : JSVal)
    (dl : List JSVal) (h' : Heap)
    (hr : h[r]? = some (.ordinary p))
    (hni : truthy (hasInstanceMD h p) = false)
    (hok : addDelegation h (.vRef r) dl = .ok h') :
    ∀ pr l', h'[h.length]? = some (.nodeTarget pr l') →
      JSVal.vNull ∉ l' ∧ JSVal.vUndefined ∉ l' := by
  intro pr l' hl'
  by_cases hdl : dl = []
  · subst hdl
    rw [show addDelegation h (.vRef r) [] = .ok h from rfl] at hok
    obtain rfl : h = h' := by injection hok
    rw [List.getElem?_eq_none (le_refl h.length)] at hl'
    exact Option.noConfusion hl'
  · rw [addDelegation_fresh h r p dl hr hni hdl] at hok
    obtain rfl : _ = h' := by injection hok
    have hLlt : h.length <
        (((h ++ [ObjData.nodeTarget JSVal.vMDproto [],
          ObjData.nodeProxy h.length]).set r
          (ObjData.ordinary (JSVal.vRef (h.length + 1))))).length := by
      simp only [List.length_set, List.length_append, List.length_cons,
        List.length_nil]
      omega
    rw [List.getElem?_set_eq_of_lt _ hLlt] at hl'
    obtain ⟨-, rfl⟩ : JSVal.vMDproto = pr ∧
        mSetter [] (delegationFilter (.vRef (h.length + 1)) (p :: dl)) = l' := by
      injection hl' with hl''
      injection hl'' with e1 e2
      exact ⟨e1, e2⟩
    constructor <;> intro hmem <;> rcases mem_mSetter.mp hmem with hl | hf <;>
      first
        | exact absurd hl (by simp)
        | exact absurd (mem_delegationFilter.mp hf).2.1 (by simp [truthy])

/-- C8: `Symbol.hasInstance` returns `undefined` — falsy but not the
boolean `false` — for `null`, `undefined`, numbers and for any object
whose own keys lack the `$.target` marker; and it returns `true` exactly
when the candidate carries the marker and the immediate prototype of the
unwrapped backing target is `MultipleDelegation.prototype`. -/
theorem claim_C8_hasInstance (h : Heap) :
    truthy JSVal.vUndefined = false ∧
    JSVal.vUndefined ≠ JSVal.vBool false ∧
    hasInstanceMD h .vNull = .vUndefined ∧
    hasInstanceMD h .vUndefined = .vUndefined ∧
    (∀ n : Int, hasInstanceMD h (.vNum n) = .vUndefined) ∧
    (∀ r : Nat, ownKeysIncludeTargetKey h r = false →
      hasInstanceMD h (.vRef r) = .vUndefined) ∧
    (∀ v : JSVal, hasInstanceMD h v = .vBool true ↔
      ∃ r t, v = .vRef r ∧ ownKeysIncludeTargetKey h r = true ∧
        rawTargetOf h r = some t ∧ rawProtoOf h t = some .vMDproto) := by
  refine ⟨rfl, by simp, rfl, rfl, fun n => rfl, fun r hk => by simp [hasInstanceMD, hk], fun v => ?_⟩
  constructor
  · intro hv
    match v with
    | .vNull | .vUndefined | .vBool _ | .vNum _ | .vNaN | .vStr _
    | .vMDproto | .vPrimProto => exact absurd hv (by simp [hasInstanceMD])
    | .vRef r =>
      refine ⟨r, ?_⟩
      rcases hhr : h[r]? with - | od
      · exact absurd hv (by simp [hasInstanceMD, ownKeysIncludeTargetKey, hhr])
      · match od with
        | .ordinary q =>
          exact absurd hv (by simp [hasInstanceMD, ownKeysIncludeTargetKey, hhr])
        | .nodeTarget q lst =>
          have hq : q = .vMDproto := by
            simpa [hasInstanceMD, ownKeysIncludeTargetKey, rawTargetOf,
              rawProtoOf, hhr] using hv
          exact ⟨r, rfl, by simp [ownKeysIncludeTargetKey, hhr],
            by simp [rawTargetOf, hhr], by simp [rawProtoOf, hhr, hq]⟩
        | .nodeProxy t =>
          rcases hht : h[t]? with - | od2
          · exact absurd hv
              (by simp [hasInstanceMD, ownKeysIncludeTargetKey, hhr, hht])
          · match od2 with
            | .ordinary q =>
              exact absurd hv
                (by simp [hasInstanceMD, ownKeysIncludeTargetKey, hhr, hht])
            | .nodeProxy t2 =>
              exact absurd hv
                (by simp [hasInstanceMD, ownKeysIncludeTargetKey, hhr, hht])
            | .nodeTarget q lst =>
              have hq : q = .vMDproto := by
                simpa [hasInstanceMD, ownKeysIncludeTargetKey, rawTargetOf,
                  rawProtoOf, hhr, hht] using hv
              exact ⟨t, rfl, by simp [ownKeysIncludeTargetKey, hhr, hht],
                by simp [rawTargetOf, hhr, hht], by simp [rawProtoOf, hht, hq]⟩
  · rintro ⟨r, t, rfl, hk, hrt, hpr⟩
    simp [hasInstanceMD, hk, hrt, hpr]

/-- C9 as stated is false: `addDelegation` with a `null` host throws a
`TypeError` in step 1 (`Object.getPrototypeOf(null)`), and a primitive
host throws at the merge step (`undefined[$.setter]`). -/
theorem claim_C9_counterexample :
    addDelegation [ObjData.ordinary .vNull] .vNull [.vRef 0]
      = .error (.typeError "Cannot convert null to object") ∧
    addDelegation [ObjData.ordinary .vNull] (.vNum 5) [.vRef 0]
      = .error (.typeError
          "Cannot read properties of undefined (reading setter)") :=
  ⟨rfl, rfl⟩

/-- If the `instanceof` test is truthy, the candidate is a reference to a
raw node target with prototype `MultipleDelegation.prototype`, or to a
proxy wrapping one. -/
theorem truthy_hasInstanceMD_inv (h : Heap) (p : JSVal)
    (hp : truthy (hasInstanceMD h p) = true) :
    ∃ π, p = .vRef π ∧
      ((∃ l, h[π]? = some (.nodeTarget .vMDproto l)) ∨
       (∃ t l, h[π]? = some (.nodeProxy t) ∧
         h[t]? = some (.nodeTarget .vMDproto l))) := by
  match p with
  | .vNull | .vUndefined | .vBool _ | .vNum _ | .vNaN | .vStr _
  | .vMDproto | .vPrimProto => exact absurd hp (by simp [hasInstanceMD, truthy])
  | .vRef r =>
    refine ⟨r, rfl, ?_⟩
    rcases hhr : h[r]? with - | od
    · exact absurd hp
        (by simp [hasInstanceMD, ownKeysIncludeTargetKey, hhr, truthy])
    · match od with
      | .ordinary q =>
        exact absurd hp
          (by simp [hasInstanceMD, ownKeysIncludeTargetKey, hhr, truthy])
      | .nodeTarget q lst =>
        have hq : q = .vMDproto := by
          simpa [hasInstanceMD, ownKeysIncludeTargetKey, rawTargetOf,
            rawProtoOf, hhr, truthy] using hp
        subst hq
        exact Or.inl ⟨lst, rfl⟩
      | .nodeProxy t =>
        rcases hht : h[t]? with - | od2
        · exact absurd hp
            (by simp [hasInstanceMD, ownKeysIncludeTargetKey, hhr, hht, truthy])
        · match od2 with
          | .ordinary q =>
            exact absurd hp
              (by simp [hasInstanceMD, ownKeysIncludeTargetKey, hhr, hht, truthy])
          | .nodeProxy t2 =>
            exact absurd hp
              (by simp [hasInstanceMD, ownKeysIncludeTargetKey, hhr, hht, truthy])
          | .nodeTarget q lst =>
            have hq : q = .vMDproto := by
              simpa [hasInstanceMD, ownKeysIncludeTargetKey, rawTargetOf,
                rawProtoOf, hhr, hht, truthy] using hp
            subst hq
            exact Or.inr ⟨t, lst, rfl, hht⟩

/-- C9 (amended): the constructor, `[$.setter]` and `Symbol.hasInstance`
are total, and `addDelegation` never throws when the host is an object
present on the heap — whatever the delegate list contains; only
`null`/`undefined`/primitive hosts make it throw. -/
theorem claim_C9_amended_total (h : Heap) (r : Nat) (p : JSVal)
    (dl : List JSVal) (hr : h[r]? = some (.ordinary p)) :
    ∃ h', addDelegation h (.vRef r) dl = .ok h' := by
  by_cases hdl : dl = []
  · exact ⟨h, by subst hdl; rfl⟩
  · by_cases hti : truthy (hasInstanceMD h p) = true
    · obtain ⟨π, rfl, hcase⟩ := truthy_hasInstanceMD_inv h p hti
      rcases hcase with ⟨l, hπ⟩ | ⟨t, l, hπ, ht⟩
      · exact ⟨_, addDelegation_existing_raw h r π l dl hr hπ hdl⟩
      · exact ⟨_, addDelegation_existing h r π t l dl hr hπ ht hdl⟩
    · exact ⟨_, addDelegation_fresh h r p dl hr
        (Bool.not_eq_true _ ▸ hti) hdl⟩

/-- C10: line 63's filter drops *every* falsy entry (`0`, `""`, `false`,
`NaN`, `null`, `undefined`), and for a host with a `null` prototype the
unshifted `null` parent is filtered as well, so `addDelegation(host, [D])`
produces a node whose delegate list is exactly `[D]`. -/
theorem claim_C10_falsy_filtered (h : Heap) (r d : Nat)
    (hr : h[r]? = some (.ordinary .vNull))
    (hd : d < h.length) :
    (∃ h', addDelegation h (.vRef r) [.vRef d] = .ok h' ∧
      h'[h.length]? = some (.nodeTarget .vMDproto [.vRef d])) ∧
    (∃ h', addDelegation h (.vRef r)
        [.vNum 0, .vStr "", .vBool false, .vNaN, .vNull, .vUndefined, .vRef d]
        = .ok h' ∧
      h'[h.length]? = some (.nodeTarget .vMDproto [.vRef d])) := by
  have hni : truthy (hasInstanceMD h .vNull) = false := rfl
  have hrlt : r < h.length := lt_length_of_getElem?_eq_some hr
  have hd1 : d ≠ h.length + 1 := by omega
  have hLlt : h.length <
      (((h ++ [ObjData.nodeTarget JSVal.vMDproto [],
        ObjData.nodeProxy h.length]).set r
        (ObjData.ordinary (JSVal.vRef (h.length + 1))))).length := by
    simp only [List.length_set, List.length_append, List.length_cons,
      List.length_nil]
    omega
  constructor
  · have hmain := addDelegation_fresh h r .vNull [.vRef d] hr hni (by simp)
    have hfil : delegationFilter (.vRef (h.length + 1)) [JSVal.vNull, .vRef d]
        = [JSVal.vRef d] := by
      simp [delegationFilter, truthy, hd1]
    rw [hfil, show mSetter [] [JSVal.vRef d] = [JSVal.vRef d] from rfl] at hmain
    exact ⟨_, hmain, List.getElem?_set_eq_of_lt _ hLlt⟩
  · have hmain := addDelegation_fresh h r .vNull
      [.vNum 0, .vStr "", .vBool false, .vNaN, .vNull, .vUndefined, .vRef d]
      hr hni (by simp)
    have hfil : delegationFilter (.vRef (h.length + 1))
        [JSVal.vNull, .vNum 0, .vStr "", .vBool false, .vNaN, .vNull,
          .vUndefined, .vRef d]
        = [JSVal.vRef d] := by
      simp [delegationFilter, truthy, hd1]
    rw [hfil, show mSetter [] [JSVal.vRef d] = [JSVal.vRef d] from rfl] at hmain
    exact ⟨_, hmain, List.getElem?_set_eq_of_lt _ hLlt⟩

/-! ## Witnesses: the hypotheses of each claim theorem are satisfiable -/

/-- Witness for C1 on a three-object heap: `P` at 0, the host at 1, the
delegate at 2. -/
theorem claim_C1_attach_fresh_witness :
    ∃ h', addDelegation
        [ObjData.ordinary JSVal.vNull, .ordinary (.vRef 0), .ordinary .vNull]
        (.vRef 1) [.vRef 2] = .ok h' ∧
      h'[1]? = some (.ordinary (.vRef 4)) ∧
      h'[4]? = some (.nodeProxy 3) ∧
      ([ObjData.ordinary JSVal.vNull, .ordinary (.vRef 0),
        .ordinary .vNull] : Heap)[4]? = none ∧
      h'[3]? = some (.nodeTarget .vMDproto [.vRef 0, .vRef 2]) :=
  claim_C1_attach_fresh
    [ObjData.ordinary JSVal.vNull, .ordinary (.vRef 0), .ordinary .vNull]
    1 0 2 .vNull rfl rfl (by decide) (by decide)

/-- Witness for C2 on a four-object heap: `P` at 0, the host at 1, the two
delegates at 2 and 3. -/
theorem claim_C2_attach_twice_witness :
    ∃ h1 h2, addDelegation
        [ObjData.ordinary JSVal.vNull, .ordinary (.vRef 0), .ordinary .vNull,
         .ordinary .vNull] (.vRef 1) [.vRef 2] = .ok h1 ∧
      addDelegation h1 (.vRef 1) [.vRef 3] = .ok h2 ∧
      h1.length = 6 ∧
      h2.length = h1.length ∧
      h1[1]? = some (.ordinary (.vRef 5)) ∧
      h2[1]? = h1[1]? ∧
      h2[4]? = some (.nodeTarget .vMDproto [.vRef 0, .vRef 2, .vRef 3]) :=
  claim_C2_attach_twice
    [ObjData.ordinary JSVal.vNull, .ordinary (.vRef 0), .ordinary .vNull,
     .ordinary .vNull]
    1 0 2 3 .vNull rfl rfl (by decide) (by decide) (by decide) (by decide)
    (by decide)

/-- Witness for the amended C3: attaching the raw target (reference 0) to a
host whose prototype is the wrapped node (reference 1) leaves the wrapped
identity out of the resulting delegate list. -/
theorem claim_C3_amended_no_wrapped_self_witness :
    JSVal.vRef 1 ∉ [JSVal.vRef 0] :=
  claim_C3_amended_no_wrapped_self
    [ObjData.nodeTarget JSVal.vMDproto [], .nodeProxy 0, .ordinary (.vRef 1)]
    2 1 0 [] [.vRef 0]
    [ObjData.nodeTarget JSVal.vMDproto [.vRef 0], .nodeProxy 0,
     .ordinary (.vRef 1)]
    rfl rfl rfl (by simp) rfl .vMDproto [.vRef 0] rfl

/-- Witness for the amended C4: attaching `[null, undefined, D]` to a
plain host yields a node list `[D]` without `null`/`undefined`. -/
theorem claim_C4_amended_attach_filters_witness :
    JSVal.vNull ∉ [JSVal.vRef 0] ∧ JSVal.vUndefined ∉ [JSVal.vRef 0] :=
  claim_C4_amended_attach_filters
    [ObjData.ordinary JSVal.vNull] 0 .vNull [.vNull, .vUndefined, .vRef 0]
    [ObjData.ordinary (JSVal.vRef 2), .nodeTarget .vMDproto [.vRef 0],
     .nodeProxy 1]
    rfl rfl rfl .vMDproto [.vRef 0] rfl

/-- Witness for C6 at three distinct references. -/
theorem claim_C6_first_occurrence_witness :
    jsSetOfList [JSVal.vNull] = firstOccurrenceDedup [JSVal.vNull] ∧
    mSetter [] [JSVal.vRef 0, .vRef 1, .vRef 0, .vRef 2]
      = [JSVal.vRef 0, .vRef 1, .vRef 2] :=
  ⟨(claim_C6_first_occurrence (.vRef 0) (.vRef 1) (.vRef 2)
      (by decide) (by decide) (by decide)).1 [JSVal.vNull],
   (claim_C6_first_occurrence (.vRef 0) (.vRef 1) (.vRef 2)
      (by decide) (by decide) (by decide)).2⟩

/-- Witness for C8 on a heap holding an ordinary object (0), a node target
(1) and its proxy (2). -/
theorem claim_C8_hasInstance_witness :
    hasInstanceMD
      [ObjData.ordinary JSVal.vNull, .nodeTarget .vMDproto [], .nodeProxy 1]
      (.vRef 0) = .vUndefined ∧
    hasInstanceMD
      [ObjData.ordinary JSVal.vNull, .nodeTarget .vMDproto [], .nodeProxy 1]
      (.vRef 2) = .vBool true :=
  ⟨(claim_C8_hasInstance
      [ObjData.ordinary JSVal.vNull, .nodeTarget .vMDproto [], .nodeProxy 1]
      ).2.2.2.2.2.1 0 rfl,
   ((claim_C8_hasInstance
      [ObjData.ordinary JSVal.vNull, .nodeTarget .vMDproto [], .nodeProxy 1]
      ).2.2.2.2.2.2 (.vRef 2)).mpr ⟨2, 1, rfl, rfl, rfl, rfl⟩⟩

/-- Witness for the amended C9: a host object present on the heap never
makes `addDelegation` throw. -/
theorem claim_C9_amended_total_witness :
    ∃ h', addDelegation [ObjData.ordinary JSVal.vNull] (.vRef 0) [.vRef 0]
      = .ok h' :=
  claim_C9_amended_total [ObjData.ordinary JSVal.vNull] 0 .vNull [.vRef 0] rfl

/-- Witness for C10: a host (0) with `null` prototype and a delegate (1). -/
theorem claim_C10_falsy_filtered_witness :
    (∃ h', addDelegation [ObjData.ordinary JSVal.vNull, .ordinary .vNull]
        (.vRef 0) [.vRef 1] = .ok h' ∧
      h'[2]? = some (.nodeTarget .vMDproto [.vRef 1])) ∧
    (∃ h', addDelegation [ObjData.ordinary JSVal.vNull, .ordinary .vNull]
        (.vRef 0)
        [.vNum 0, .vStr "", .vBool false, .vNaN, .vNull, .vUndefined, .vRef 1]
        = .ok h' ∧
      h'[2]? = some (.nodeTarget .vMDproto [.vRef 1])) :=
  claim_C10_falsy_filtered
    [ObjData.ordinary JSVal.vNull, .ordinary .vNull] 0 1 rfl (by decide)

end MultipleDelegation
